import Mathlib

/-!
Verification of the extraction / normalization / assembly core of
`parse_appsumo_invoices.py` (AppSumo invoice text parser).

The Python source is shallowly embedded: document text is a `List Char`
(`String` at the interface), Python dicts are association lists
`List (String × PyVal)`, amounts are exact rationals `ℚ` (the program only
ever manipulates short decimal literals), fallible operations return
`Option`.  Each compiled regular expression of the source becomes an
executable matcher `List Char → Option (List Char)` returning group 1,
and `re.search` becomes `searchFirst`, which tries every suffix position
left to right — the leftmost-match semantics of the Python engine.
-/

namespace AppSumo

/- The kernel evaluates concrete runs of the embedded program inside
`decide` proofs; the rational operations must be reducible for that. -/
attribute [local semireducible] Rat.mul Rat.add Rat.inv Rat.sub Rat.ofScientific

/-- ASCII whitespace recognized by Python's `str.strip` and by `\s` in the
source's patterns (space, tab, newline, carriage return, vertical tab,
form feed).  The additional Unicode whitespace code points accepted by
Python are not modelled; all text handled by this program is ASCII. -/
def isPySpace (c : Char) : Bool :=
  c = ' ' || c = '\t' || c = '\n' || c = '\r' || c = '\x0b' || c = '\x0c'

/-- ASCII decimal digit, as matched by `[0-9]` in the source patterns. -/
def isDigitCh (c : Char) : Bool := '0' ≤ c && c ≤ '9'

/-- ASCII letter, as matched by `[A-Za-z]`. -/
def isAlphaCh (c : Char) : Bool := ('a' ≤ c && c ≤ 'z') || ('A' ≤ c && c ≤ 'Z')

/-- `[A-Za-z0-9]` — first character of a product name. -/
def isAlnumCh (c : Char) : Bool := isAlphaCh c || isDigitCh c

/-- Character class `[0-9\.\,]` used by every amount-capturing group. -/
def isAmountCh (c : Char) : Bool := isDigitCh c || c = '.' || c = ','

/-- Character class `[0-9a-f-]` with `re.I`: hex digits (either case),
decimal digits and hyphen — the invoice-id token alphabet. -/
def isIdCh (c : Char) : Bool :=
  isDigitCh c || ('a' ≤ c && c ≤ 'f') || ('A' ≤ c && c ≤ 'F') || c = '-'

/-- Character class `[A-Z0-9\-]` with `re.I` — the tax-id token alphabet. -/
def isTaxCh (c : Char) : Bool := isAlphaCh c || isDigitCh c || c = '-'

/-- ASCII lower-casing, the case folding performed by `re.I` on this
program's ASCII text. -/
def lc (c : Char) : Char := c.toLower

/-- Python `str.strip()` restricted to ASCII whitespace. -/
def pyStrip (cs : List Char) : List Char :=
  ((cs.dropWhile isPySpace).reverse.dropWhile isPySpace).reverse

/-- Python `str.splitlines()` for the line-break characters that can occur
in this program's ASCII text: `\n`, `\r\n`, `\r`, `\v`, `\f` (the rarer
Unicode breaks `\x1c`–`\x1e`, `\x85`, `U+2028/9` are not modelled).
A terminal line break produces no trailing empty line. -/
def splitlinesPy : List Char → List Char → List (List Char)
  | [], cur => if cur = [] then [] else [cur.reverse]
  | '\r' :: '\n' :: rest, cur => cur.reverse :: splitlinesPy rest []
  | c :: rest, cur =>
    if c = '\n' || c = '\r' || c = '\x0b' || c = '\x0c' then
      cur.reverse :: splitlinesPy rest []
    else
      splitlinesPy rest (c :: cur)

/-- `"\n".join(lines)`. -/
def joinNL : List (List Char) → List Char
  | [] => []
  | [l] => l
  | l :: ls => l ++ '\n' :: joinNL ls

/-- `[ln.strip() for ln in text.splitlines() if ln.strip()]`
(`split_product_blocks`, line 96). -/
def prepLines (cs : List Char) : List (List Char) :=
  ((splitlinesPy cs []).map pyStrip).filter (· ≠ [])

/-! ### `norm_amount` (source lines 45–61) -/

/-- `s.rfind(c)`: index of the last occurrence, `none` when absent
(Python returns `-1`; absence never feeds the comparison in the source
because both separators are known to be present there). -/
def rfindIdx (c : Char) : List Char → Option ℕ
  | [] => none
  | x :: t =>
    match rfindIdx c t with
    | some i => some (i + 1)
    | none => if x = c then some 0 else none

/-- Numeric value of a digit run (most significant first). -/
def digitsVal (cs : List Char) : ℕ :=
  cs.foldl (fun a c => a * 10 + (c.toNat - 48)) 0

/-- Optional leading sign of a numeric literal: the sign value and the
remaining characters. -/
def pySign : List Char → ℚ × List Char
  | '+' :: t => (1, t)
  | '-' :: t => (-1, t)
  | cs => (1, cs)

/-- Fractional digits after a leading period (empty when there is no
period). -/
def pyFracDigits : List Char → List Char
  | '.' :: t => t.takeWhile isDigitCh
  | _ => []

/-- What remains after the optional period and fractional digits. -/
def pyFracRest : List Char → List Char
  | '.' :: t => t.drop (t.takeWhile isDigitCh).length
  | r1 => r1

/-- Optional sign of an exponent. -/
def pyExpSign : List Char → Bool × List Char
  | '+' :: t => (true, t)
  | '-' :: t => (false, t)
  | t => (true, t)

/-- The optional exponent tail `([eE][+-]?digits)?`; the whole remainder
must be consumed. -/
def pyExpTail (mant : ℚ) : List Char → Option ℚ
  | [] => some mant
  | e :: t =>
    if e = 'e' || e = 'E' then
      let t1 := (pyExpSign t).2
      let ed := t1.takeWhile isDigitCh
      if ed = [] || t1.drop ed.length ≠ [] then none
      else
        some (if (pyExpSign t).1 then mant * 10 ^ digitsVal ed
              else mant / 10 ^ digitsVal ed)
    else none

/-- Model of Python `float(s)` on the finite decimal literals this program
can produce: optional sign, digits with optional fractional part, optional
exponent; the whole string must be consumed.  Underscore separators and
the `inf`/`nan` forms are not modelled (treated as parse failure); every
string reaching this function in the program consists of ASCII digits,
periods and commas.  The value is kept as an exact rational. -/
def pyFloat (cs : List Char) : Option ℚ :=
  let r0 := (pySign cs).2
  let ip := r0.takeWhile isDigitCh
  let r1 := r0.drop ip.length
  let fp := pyFracDigits r1
  if ip = [] && fp = [] then none
  else
    pyExpTail ((pySign cs).1 * ((digitsVal ip : ℚ) + (digitsVal fp : ℚ) / 10 ^ fp.length))
      (pyFracRest r1)

/-- Value of an integer part plus a 1–2 digit fractional part. -/
def fracVal (ip fs : List Char) : ℚ :=
  (digitsVal ip : ℚ) + (digitsVal fs : ℚ) / 10 ^ fs.length

/-- `re.search(r"([0-9]+(?:\.[0-9]{1,2})?)", s)` followed by `float` of the
capture: leftmost match, maximal digit run, then greedily an optional
period with one or two fractional digits. -/
def fallbackScan : List Char → Option ℚ
  | [] => none
  | c :: t =>
    if isDigitCh c then
      let ip := (c :: t).takeWhile isDigitCh
      let r := (c :: t).drop ip.length
      some
        (match r with
         | '.' :: d1 :: d2 :: _ =>
           if isDigitCh d1 then
             if isDigitCh d2 then fracVal ip [d1, d2] else fracVal ip [d1]
           else fracVal ip []
         | ['.', d1] =>
           if isDigitCh d1 then fracVal ip [d1] else fracVal ip []
         | _ => fracVal ip [])
    else fallbackScan t

/-- `norm_amount` (source lines 45–61), on the character list of the
argument.  `if not s` is the empty-string test; `strip` + `replace(" ","")`
remove edge whitespace and internal spaces; the separator logic compares
`rfind` results; `float` is attempted and the digit-scan fallback used on
failure. -/
def normAmountChars (cs : List Char) : Option ℚ :=
  if cs = [] then none
  else
    let s1 := (pyStrip cs).filter (· ≠ ' ')
    let s2 :=
      if ',' ∈ s1 ∧ '.' ∈ s1 then
        if (rfindIdx ',' s1).getD 0 > (rfindIdx '.' s1).getD 0 then
          (s1.filter (· ≠ '.')).map (fun c => if c = ',' then '.' else c)
        else s1.filter (· ≠ ',')
      else
        if ',' ∈ s1 ∧ '.' ∉ s1 then s1.map (fun c => if c = ',' then '.' else c)
        else s1
    match pyFloat s2 with
    | some q => some q
    | none => fallbackScan s2

/-- `norm_amount` on a `String`. -/
def normAmountS (s : String) : Option ℚ := normAmountChars s.data

/-- `norm_amount` on an optional argument (`norm_amount(None)` is `None`,
via `if not s`). -/
def normAmountOpt (s : Option String) : Option ℚ :=
  match s with
  | none => none
  | some s => normAmountS s

/-! #### Spec-side restatement of the AmountNormalizer rule

`normAmountSpecChars` is written from the specification's words, for the
refinement claim C4: "trim and strip internal spaces; if both `,` and `.`
appear, the character appearing later in the string is the decimal
separator and the other is removed; if only `,` appears replace it with
`.`; if only `.` appears leave unchanged; attempt a direct numeric parse;
on failure use the first substring matching an integer with an optional
1–2 digit fractional part; if nothing matches return null."  "Appearing
later" is computed here by looking for the first separator of the
reversed string, not by comparing `rfind` indices as the code does. -/
def normAmountSpecChars (cs : List Char) : Option ℚ :=
  if cs = [] then none
  else
    let s1 := (pyStrip cs).filter (· ≠ ' ')
    let s2 :=
      if ',' ∈ s1 ∧ '.' ∈ s1 then
        if s1.reverse.find? (fun c => c = ',' || c = '.') = some ',' then
          (s1.filter (· ≠ '.')).map (fun c => if c = ',' then '.' else c)
        else s1.filter (· ≠ ',')
      else
        if ',' ∈ s1 ∧ '.' ∉ s1 then s1.map (fun c => if c = ',' then '.' else c)
        else s1
    match pyFloat s2 with
    | some q => some q
    | none => fallbackScan s2

def normAmountSpecS (s : String) : Option ℚ := normAmountSpecChars s.data

/-! ### Regular-expression matchers

Each compiled pattern of the source becomes a function
`List Char → Option (List Char)` that attempts a match anchored at the
head of its argument and returns group 1.  All the source's patterns are
deterministic under greedy matching except where noted, because adjacent
pieces draw from disjoint character classes; the two places where the
Python engine backtracks (`\s*([^\n]+)` and the lazy product-name prefix)
are implemented with their exact backtracking semantics.
`searchFirst` then scans every suffix left to right, which is the
leftmost-match rule of `re.search`. -/

/-- Case-insensitive literal prefix: on success returns the remainder. -/
def ciPrefix? : List Char → List Char → Option (List Char)
  | [], cs => some cs
  | _, [] => none
  | p :: ps, c :: cs => if lc c = lc p then ciPrefix? ps cs else none

/-- `re.search`: try a match at each start position, leftmost first
(the empty suffix included, as the engine also tries position `len(s)`). -/
def searchFirst (m : List Char → Option (List Char)) : List Char → Option (List Char)
  | [] => m []
  | c :: cs =>
    match m (c :: cs) with
    | some r => some r
    | none => searchFirst m cs

/-- `\s+`: at least one whitespace character, greedily consumed. -/
def ws1 (cs : List Char) : Option (List Char) :=
  match cs with
  | c :: t => if isPySpace c then some (t.dropWhile isPySpace) else none
  | [] => none

/-- `\s*\$?\s*([0-9\.\,]+)` — the amount tail shared by every currency
pattern.  The pieces draw from disjoint classes, so greedy matching is
deterministic. -/
def amountTail (cs : List Char) : Option (List Char) :=
  let r1 := cs.dropWhile isPySpace
  let r2 := match r1 with
    | '$' :: t => t.dropWhile isPySpace
    | _ => r1
  let cap := r2.takeWhile isAmountCh
  if cap = [] then none else some cap

/-- `\s*[-–]?\s*\$?\s*([0-9\.\,]+)` — amount tail with an optional
hyphen / en-dash, used by the two discount patterns. -/
def dashAmountTail (cs : List Char) : Option (List Char) :=
  let r := cs.dropWhile isPySpace
  let r2 := match r with
    | c :: t => if c = '-' || c = '–' then t else r
    | [] => r
  amountTail r2

/-- `\s*([^\n]+)` — rest-of-line capture.  The greedy `\s*` prefers to
consume as much whitespace as possible and backtracks only when nothing
non-empty is left for `[^\n]+`; that is exactly the preference order of
this recursion (consume the whitespace character first, fall back to
starting the capture on it when it is not a newline). -/
def lineTail : List Char → Option (List Char)
  | [] => none
  | c :: cs =>
    if isPySpace c then
      match lineTail cs with
      | some r => some r
      | none => if c = '\n' then none else some ((c :: cs).takeWhile (· ≠ '\n'))
    else
      some ((c :: cs).takeWhile (· ≠ '\n'))

/-- `RE_INVOICE_ID = r"Invoice ID:\s*([0-9a-f-]{16,})"`, `re.I`. -/
def invoiceIdM (cs : List Char) : Option (List Char) :=
  (ciPrefix? "invoice id:".data cs).bind fun r =>
    let cap := (r.dropWhile isPySpace).takeWhile isIdCh
    if 16 ≤ cap.length then some cap else none

/-- `RE_STATUS = r"Status:\s*(PAID|REFUNDED)"`, `re.I`; the alternation
tries `PAID` first and the group captures the original-case text. -/
def statusM (cs : List Char) : Option (List Char) :=
  (ciPrefix? "status:".data cs).bind fun r =>
    let r2 := r.dropWhile isPySpace
    match ciPrefix? "paid".data r2 with
    | some _ => some (r2.take 4)
    | none =>
      match ciPrefix? "refunded".data r2 with
      | some _ => some (r2.take 8)
      | none => none

/-- `RE_PAYMENT = r"Payment type:\s*([^\n]+)"`, `re.I`. -/
def paymentM (cs : List Char) : Option (List Char) :=
  (ciPrefix? "payment type:".data cs).bind lineTail

/-- `RE_TAXID = r"Tax ID:\s*([A-Z0-9\-]+)"`, `re.I`. -/
def taxIdM (cs : List Char) : Option (List Char) :=
  (ciPrefix? "tax id:".data cs).bind fun r =>
    let cap := (r.dropWhile isPySpace).takeWhile isTaxCh
    if cap = [] then none else some cap

/-- `RE_INVOICE_SUBTOTAL = r"Invoice\s+subtotal\s*\$?\s*([0-9\.\,]+)"`. -/
def invSubtotalM (cs : List Char) : Option (List Char) :=
  (ciPrefix? "invoice".data cs).bind fun r =>
    (ws1 r).bind fun r2 =>
      (ciPrefix? "subtotal".data r2).bind amountTail

/-- `RE_PLAN_DISCOUNT_TOT =
r"Total\s+applied\s+plan\s+discount\s*[-–]?\s*\$?\s*([0-9\.\,]+)"`. -/
def planDiscTotM (cs : List Char) : Option (List Char) :=
  (ciPrefix? "total".data cs).bind fun r =>
    (ws1 r).bind fun r1 =>
      (ciPrefix? "applied".data r1).bind fun r2 =>
        (ws1 r2).bind fun r3 =>
          (ciPrefix? "plan".data r3).bind fun r4 =>
            (ws1 r4).bind fun r5 =>
              (ciPrefix? "discount".data r5).bind dashAmountTail

/-- `RE_INVOICE_TAX = r"Tax\s*\$?\s*([0-9\.\,]+)"`. -/
def invTaxM (cs : List Char) : Option (List Char) :=
  (ciPrefix? "tax".data cs).bind amountTail

/-- `RE_TOTAL_PAID = r"Total\s+paid\s*\([^)]+\)\s*\$?\s*([0-9\.\,]+)"`. -/
def totalPaidM (cs : List Char) : Option (List Char) :=
  (ciPrefix? "total".data cs).bind fun r =>
    (ws1 r).bind fun r1 =>
      (ciPrefix? "paid".data r1).bind fun r2 =>
        match r2.dropWhile isPySpace with
        | '(' :: r3 =>
          let inner := r3.takeWhile (· ≠ ')')
          if inner = [] then none
          else
            match r3.drop inner.length with
            | ')' :: r4 => amountTail r4
            | _ => none
        | _ => none

/-- `RE_DEAL_PLAN = r"Deal\s+plan:\s*([^\n]+)"`. -/
def dealPlanM (cs : List Char) : Option (List Char) :=
  (ciPrefix? "deal".data cs).bind fun r =>
    (ws1 r).bind fun r1 =>
      (ciPrefix? "plan:".data r1).bind lineTail

/-- `RE_LINE_SUBTOTAL = r"Subtotal\s*\$?\s*([0-9\.\,]+)"`. -/
def lineSubtotalM (cs : List Char) : Option (List Char) :=
  (ciPrefix? "subtotal".data cs).bind amountTail

/-- `RE_LINE_TOTAL = r"Total\s*\$?\s*([0-9\.\,]+)"`. -/
def lineTotalM (cs : List Char) : Option (List Char) :=
  (ciPrefix? "total".data cs).bind amountTail

/-- `RE_LINE_PLAN_DISCOUNT = r"Plan\s+discount\s*[-–]?\s*\$?\s*([0-9\.\,]+)"`. -/
def linePlanDiscM (cs : List Char) : Option (List Char) :=
  (ciPrefix? "plan".data cs).bind fun r =>
    (ws1 r).bind fun r1 =>
      (ciPrefix? "discount".data r1).bind dashAmountTail

/-- The tail of `RE_PRODUCT_NAME_WITH_SUBTOTAL` after the name group:
`\s+Subtotal\s*\$?\s*([0-9\.\,]+)`, as a success test. -/
def productTailOk (rest : List Char) : Bool :=
  match ws1 rest with
  | some r =>
    match ciPrefix? "subtotal".data r with
    | some r2 => (amountTail r2).isSome
    | none => false
  | none => false

/-- `RE_PRODUCT_NAME_WITH_SUBTOTAL =
r"(?P<name>[A-Za-z0-9].{0,80}?)\s+Subtotal\s*\$?\s*([0-9\.\,]+)"` with
`re.I | re.S`: an alphanumeric first character, a lazy run of up to 80
further arbitrary characters (newlines included under `re.S`), then the
subtotal tail.  Laziness means the shortest name for which the whole
remainder matches wins, so candidate lengths are tried in increasing
order.  Returns the name group. -/
def productM (cs : List Char) : Option (List Char) :=
  match cs with
  | [] => none
  | c :: _ =>
    if isAlnumCh c then
      (List.range 81).findSome? fun k =>
        if productTailOk (cs.drop (1 + k)) then some (cs.take (1 + k)) else none
    else none

/-! ### `parse_date` (source lines 17–20 and 63–72) -/

/-- The day part of the two date captures: `\d{1,2}` followed by the
literal `", "`.  The greedy quantifier first tries two digits and
backtracks to one when the following `", "` does not fit.  Returns the
day digits and the remainder after `", "`. -/
def dayThen (r : List Char) : Option (List Char × List Char) :=
  match r with
  | a :: r1 =>
    if isDigitCh a then
      match r1 with
      | b :: ',' :: ' ' :: r2 =>
        if isDigitCh b then some ([a, b], r2) else none
      | ',' :: ' ' :: r2 => some ([a], r2)
      | _ => none
    else none
  | [] => none

/-- Group of `r"Date:\s*([A-Za-z]+ \d{1,2}, \d{4})"` (`re.I`): the first
pattern of `DATE_PATTERNS`, paired with format `%B %d, %Y`. -/
def dateM1 (cs : List Char) : Option (List Char) :=
  (ciPrefix? "date:".data cs).bind fun r =>
    let r2 := r.dropWhile isPySpace
    let letters := r2.takeWhile isAlphaCh
    if letters = [] then none
    else
      match r2.drop letters.length with
      | ' ' :: r3 =>
        (dayThen r3).bind fun (ds, r4) =>
          let ys := r4.take 4
          if ys.length = 4 ∧ ys.all isDigitCh then
            some (letters ++ ' ' :: (ds ++ ',' :: ' ' :: ys))
          else none
      | _ => none

/-- Group of `r"Date:\s*([A-Za-z]{3} \d{1,2}, \d{4})"` (`re.I`): the
second pattern of `DATE_PATTERNS`, paired with format `%b %d, %Y`.
Exactly three letters must be followed by the literal space. -/
def dateM2 (cs : List Char) : Option (List Char) :=
  (ciPrefix? "date:".data cs).bind fun r =>
    let r2 := r.dropWhile isPySpace
    let letters := r2.take 3
    if letters.length = 3 ∧ letters.all isAlphaCh then
      match r2.drop 3 with
      | ' ' :: r3 =>
        (dayThen r3).bind fun (ds, r4) =>
          let ys := r4.take 4
          if ys.length = 4 ∧ ys.all isDigitCh then
            some (letters ++ ' ' :: (ds ++ ',' :: ' ' :: ys))
          else none
      | _ => none
    else none

/-- English month names, as matched by `strptime`'s `%B` in the C locale. -/
def monthFull : List (List Char) :=
  ["january".data, "february".data, "march".data, "april".data, "may".data,
   "june".data, "july".data, "august".data, "september".data, "october".data,
   "november".data, "december".data]

/-- English month abbreviations, as matched by `%b`. -/
def monthAbbr : List (List Char) :=
  ["jan".data, "feb".data, "mar".data, "apr".data, "may".data, "jun".data,
   "jul".data, "aug".data, "sep".data, "oct".data, "nov".data, "dec".data]

/-- Case-insensitive equality of character lists. -/
def ciEq (a b : List Char) : Bool := a.map lc = b.map lc

/-- 1-based month number of a name, case-insensitively. -/
def monthIndex? (names : List (List Char)) (nm : List Char) : Option ℕ :=
  (names.findIdx? (fun n => ciEq n nm)).map (· + 1)

/-- Gregorian leap-year rule used by `datetime.date`. -/
def isLeap (y : ℕ) : Bool := y % 4 = 0 && (y % 100 ≠ 0 || y % 400 = 0)

/-- Length of a month, as validated by the `datetime` constructor. -/
def daysInMonth (y m : ℕ) : ℕ :=
  if m = 2 then (if isLeap y then 29 else 28)
  else if m = 4 || m = 6 || m = 9 || m = 11 then 30
  else 31

/-- Calendar validity enforced by `datetime.strptime` / `datetime.date`
(`MINYEAR = 1`; the day must exist in the month). -/
def validYMD (y m d : ℕ) : Bool := 1 ≤ y && 1 ≤ d && d ≤ daysInMonth y m

/-- Model of `datetime.strptime(s, "<month> %d, %Y")` on the captures
produced by the two `DATE_PATTERNS` groups (a letter run, one space, one
or two day digits, `", "`, four year digits — the shape the capturing
groups guarantee): the letter run must equal a month name from `names`
case-insensitively, the whole string must be consumed, and the resulting
date must be a valid calendar date. -/
def strptimeDate (names : List (List Char)) (cs : List Char) : Option (ℕ × ℕ × ℕ) :=
  let nm := cs.takeWhile isAlphaCh
  match monthIndex? names nm with
  | none => none
  | some m =>
    match cs.drop nm.length with
    | ' ' :: r1 =>
      let ds := r1.takeWhile isDigitCh
      if ds = [] ∨ 2 < ds.length then none
      else
        match r1.drop ds.length with
        | ',' :: ' ' :: r2 =>
          let ys := r2.takeWhile isDigitCh
          if ys.length = 4 ∧ r2.drop ys.length = [] then
            let y := digitsVal ys
            let d := digitsVal ds
            if validYMD y m d then some (y, m, d) else none
          else none
        | _ => none
    | _ => none

/-- Zero-padded decimal rendering used by `date.isoformat()`. -/
def pad2 (n : ℕ) : String := (if n < 10 then "0" else "") ++ toString n

def pad4 (n : ℕ) : String :=
  (if n < 10 then "000" else if n < 100 then "00" else if n < 1000 then "0" else "")
    ++ toString n

/-- `date.isoformat()`: `YYYY-MM-DD`. -/
def isoOf (ymd : ℕ × ℕ × ℕ) : String :=
  pad4 ymd.1 ++ "-" ++ pad2 ymd.2.1 ++ "-" ++ pad2 ymd.2.2

/-- Second iteration of the `parse_date` loop: the abbreviated-month
pattern with format `%b %d, %Y`. -/
def parseDateP2 (cs : List Char) : Option String :=
  match searchFirst dateM2 cs with
  | some c =>
    match strptimeDate monthAbbr c with
    | some ymd => some (isoOf ymd)
    | none => none
  | none => none

/-- `parse_date` (source lines 63–72): the patterns of `DATE_PATTERNS` are
tried in order; for each, the first match of the pattern is parsed with
its paired format, a parse failure falling through to the next pattern. -/
def parseDateChars (cs : List Char) : Option String :=
  match searchFirst dateM1 cs with
  | some c =>
    match strptimeDate monthFull c with
    | some ymd => some (isoOf ymd)
    | none => parseDateP2 cs
  | none => parseDateP2 cs

def parseDateS (t : String) : Option String := parseDateChars t.data

/-! ### Records (Python dicts) -/

/-- A Python value stored in an output record: `None`, a string, or an
amount (a `float` in the source, modelled as an exact rational). -/
inductive PyVal where
  | none : PyVal
  | str : String → PyVal
  | num : ℚ → PyVal
deriving DecidableEq, Repr

/-- A Python dict with string keys, as an insertion-ordered association
list (every dict this program builds has distinct keys). -/
abbrev Rec := List (String × PyVal)

/-- `d[k] = v`: overwrite in place when the key exists, append otherwise. -/
def dictSet : Rec → String → PyVal → Rec
  | [], k, v => [(k, v)]
  | (k', v') :: t, k, v =>
    if k' = k then (k, v) :: t else (k', v') :: dictSet t k v

/-- `d.update(pairs)`: `dictSet` for each pair in order. -/
def dictUpdate (d : Rec) (kvs : Rec) : Rec :=
  kvs.foldl (fun d kv => dictSet d kv.1 kv.2) d

/-- Key list of a record, in insertion order. -/
def keysOf (d : Rec) : List String := d.map Prod.fst

/-- An optional string as a record value. -/
def pyOptStr (s : Option String) : PyVal :=
  match s with
  | some s => .str s
  | none => .none

/-- An optional amount as a record value. -/
def pyOptNum (q : Option ℚ) : PyVal :=
  match q with
  | some q => .num q
  | none => .none

/-! ### `split_product_blocks` (source lines 95–119) -/

/-- `"\n".join(lines[i:i+n])`. -/
def windowJoin (lines : List (List Char)) (i n : ℕ) : List Char :=
  joinNL ((lines.drop i).take n)

/-- `norm_amount(m.group(1)) if m else None`. -/
def normCapt (c : Option (List Char)) : Option ℚ := c.bind normAmountChars

/-- The row dict appended for a detected product block (source lines
109–115): the trimmed name plus the four independent searches over the
25-line window. -/
def buildRow (name : List Char) (w2 : List Char) : Rec :=
  [("product_name", .str (String.mk (pyStrip name))),
   ("deal_plan", pyOptStr ((searchFirst dealPlanM w2).map (fun c => String.mk (pyStrip c)))),
   ("line_subtotal", pyOptNum (normCapt (searchFirst lineSubtotalM w2))),
   ("line_plan_discount", pyOptNum (normCapt (searchFirst linePlanDiscM w2))),
   ("line_total", pyOptNum (normCapt (searchFirst lineTotalM w2)))]

/-- Cursor advance of one loop iteration of `split_product_blocks`:
6 lines when the name-with-subtotal pattern matched in the 12-line
window, 1 line otherwise. -/
def sbAdvance (lines : List (List Char)) (i : ℕ) : ℕ :=
  if (searchFirst productM (windowJoin lines i 12)).isSome then i + 6 else i + 1

/-- The `while i < len(lines)` loop of `split_product_blocks`, with an
explicit iteration budget.  The source's loop has none; because the
cursor strictly increases each iteration, any budget of at least
`lines.length - i` iterations yields the loop's value (the content of
claim C8, proved below as `sbGo_fuel_irrelevant`), so `splitProductBlocks`
runs the loop with budget `lines.length`. -/
def sbGo (lines : List (List Char)) : ℕ → ℕ → List Rec
  | 0, _ => []
  | fuel + 1, i =>
    if i < lines.length then
      match searchFirst productM (windowJoin lines i 12) with
      | some name => buildRow name (windowJoin lines i 25) :: sbGo lines fuel (i + 6)
      | none => sbGo lines fuel (i + 1)
    else []

/-- Number of loop iterations `split_product_blocks` performs from
cursor `i`, under the same iteration budget. -/
def sbSteps (lines : List (List Char)) : ℕ → ℕ → ℕ
  | 0, _ => 0
  | fuel + 1, i =>
    if i < lines.length then sbSteps lines fuel (sbAdvance lines i) + 1 else 0

/-- `split_product_blocks(text)`. -/
def splitProductBlocks (cs : List Char) : List Rec :=
  sbGo (prepLines cs) (prepLines cs).length 0

def splitProductBlocksS (t : String) : List Rec := splitProductBlocks t.data

/-! ### `parse_invoice_text` (source lines 121–179) -/

/-- `RE_INVOICE_ID.search(text)` group, line 128. -/
def invoiceIdOf (t : String) : Option String :=
  (searchFirst invoiceIdM t.data).map String.mk

/-- `status.group(1).upper()`, line 129. -/
def statusOf (t : String) : Option String :=
  (searchFirst statusM t.data).map (fun c => String.mk (c.map Char.toUpper))

/-- `payment.group(1).strip()`, line 130. -/
def paymentTypeOf (t : String) : Option String :=
  (searchFirst paymentM t.data).map (fun c => String.mk (pyStrip c))

/-- `taxid.group(1).strip()`, line 131. -/
def taxIdOf (t : String) : Option String :=
  (searchFirst taxIdM t.data).map (fun c => String.mk (pyStrip c))

/-- `parse_date(text)`, line 125. -/
def dateOf (t : String) : Option String := parseDateChars t.data

/-- Line 133. -/
def invSubtotalOf (t : String) : Option ℚ := normCapt (searchFirst invSubtotalM t.data)

/-- Line 134. -/
def planDiscTotOf (t : String) : Option ℚ := normCapt (searchFirst planDiscTotM t.data)

/-- Line 135. -/
def invTaxOf (t : String) : Option ℚ := normCapt (searchFirst invTaxM t.data)

/-- Line 136. -/
def totalPaidOf (t : String) : Option ℚ := normCapt (searchFirst totalPaidM t.data)

/-- The single-item backfill (source lines 140–144): when exactly one row
was produced, a null `line_total` is replaced by the header's total paid
and, independently, a null `line_subtotal` by the header's invoice
subtotal, each only when the header value is non-null. -/
def backfillRows (t : String) (rows : List Rec) : List Rec :=
  match rows with
  | [r] =>
    let r1 :=
      if List.lookup "line_total" r = some PyVal.none ∧ (totalPaidOf t).isSome then
        dictSet r "line_total" (pyOptNum (totalPaidOf t))
      else r
    let r2 :=
      if List.lookup "line_subtotal" r1 = some PyVal.none ∧ (invSubtotalOf t).isSome then
        dictSet r1 "line_subtotal" (pyOptNum (invSubtotalOf t))
      else r1
    [r2]
  | _ => rows

/-- The header dict merged into every product row (the `r.update({...})`
literal of source lines 166–176, in its key order). -/
def headerPairsOf (t : String) : Rec :=
  [("invoice_id", pyOptStr (invoiceIdOf t)),
   ("invoice_status", pyOptStr (statusOf t)),
   ("invoice_date", pyOptStr (dateOf t)),
   ("payment_type", pyOptStr (paymentTypeOf t)),
   ("tax_id", pyOptStr (taxIdOf t)),
   ("invoice_subtotal", pyOptNum (invSubtotalOf t)),
   ("invoice_plan_discount_total", pyOptNum (planDiscTotOf t)),
   ("invoice_tax", pyOptNum (invTaxOf t)),
   ("invoice_total_paid", pyOptNum (totalPaidOf t))]

/-- The record emitted for a document with no product rows but a
recovered invoice id (the dict literal of source lines 148–163, in its
key order). -/
def emptyItemRecord (t : String) : Rec :=
  [("invoice_id", pyOptStr (invoiceIdOf t)),
   ("invoice_status", pyOptStr (statusOf t)),
   ("invoice_date", pyOptStr (dateOf t)),
   ("payment_type", pyOptStr (paymentTypeOf t)),
   ("tax_id", pyOptStr (taxIdOf t)),
   ("product_name", .none),
   ("deal_plan", .none),
   ("line_subtotal", .none),
   ("line_plan_discount", .none),
   ("line_total", .none),
   ("invoice_subtotal", pyOptNum (invSubtotalOf t)),
   ("invoice_plan_discount_total", pyOptNum (planDiscTotOf t)),
   ("invoice_tax", pyOptNum (invTaxOf t)),
   ("invoice_total_paid", pyOptNum (totalPaidOf t))]

/-- `parse_invoice_text` (source lines 121–179).  The recovered invoice
id is a captured token of at least 16 characters, so its Python
truthiness in `if not prod_rows and invoice_id` is simply presence. -/
def parseInvoiceText (t : String) : List Rec :=
  let prodRows := backfillRows t (splitProductBlocksS t)
  if prodRows = [] ∧ (invoiceIdOf t).isSome then [emptyItemRecord t]
  else prodRows.map (fun r => dictUpdate r (headerPairsOf t))

/-- The per-document record emission of `main` (source lines 201–204):
each parsed row is given the source-document reference under the key
`"_source_file"`. -/
def mainRows (t : String) (path : String) : List Rec :=
  (parseInvoiceText t).map (fun r => dictSet r "_source_file" (.str path))

/-! ### Header fields as a family, for the order-independence claims -/

/-- The nine document-level fields recovered by `parse_invoice_text`. -/
inductive HeaderField where
  | invoiceId | status | payment | taxId | date
  | invSubtotal | planDiscTot | invTax | totalPaid
deriving DecidableEq, Repr

/-- The matcher(s) a header field's extraction searches the text with:
one anchored pattern per field, except the date, which tries the two
`DATE_PATTERNS` in order. -/
def headerMatchers : HeaderField → List (List Char → Option (List Char))
  | .invoiceId => [invoiceIdM]
  | .status => [statusM]
  | .payment => [paymentM]
  | .taxId => [taxIdM]
  | .date => [dateM1, dateM2]
  | .invSubtotal => [invSubtotalM]
  | .planDiscTot => [planDiscTotM]
  | .invTax => [invTaxM]
  | .totalPaid => [totalPaidM]

/-- The value `parse_invoice_text` recovers for one header field. -/
def extractHeaderField (f : HeaderField) (t : String) : PyVal :=
  match f with
  | .invoiceId => pyOptStr (invoiceIdOf t)
  | .status => pyOptStr (statusOf t)
  | .payment => pyOptStr (paymentTypeOf t)
  | .taxId => pyOptStr (taxIdOf t)
  | .date => pyOptStr (dateOf t)
  | .invSubtotal => pyOptNum (invSubtotalOf t)
  | .planDiscTot => pyOptNum (planDiscTotOf t)
  | .invTax => pyOptNum (invTaxOf t)
  | .totalPaid => pyOptNum (totalPaidOf t)

/-! ### Auxiliary definitions for the claims -/

/-- The pattern's label occurs (case-insensitively) somewhere in the
text: some suffix starts with it. -/
def containsCI (pat : List Char) : List Char → Bool
  | [] => (ciPrefix? pat []).isSome
  | c :: t => (ciPrefix? pat (c :: t)).isSome || containsCI pat t

/-- Key-list effect of `dict.update`: keys already present stay where
they are, new keys are appended in update order. -/
def keyFold (ks : List String) (names : List String) : List String :=
  names.foldl (fun ks k => if k ∈ ks then ks else ks ++ [k]) ks

/-- The five keys of a product row built by `split_product_blocks`. -/
def productKeys : List String :=
  ["product_name", "deal_plan", "line_subtotal", "line_plan_discount", "line_total"]

/-- The fifteen keys every record written by `main` carries (the
fourteen parser keys plus the source-document reference, which `main`
stores under `"_source_file"`). -/
def outputKeys : List String :=
  ["invoice_id", "invoice_status", "invoice_date", "payment_type", "tax_id",
   "product_name", "deal_plan", "line_subtotal", "line_plan_discount", "line_total",
   "invoice_subtotal", "invoice_plan_discount_total", "invoice_tax",
   "invoice_total_paid", "_source_file"]

/-- A document with a recoverable invoice id and no product block. -/
def docIdOnly : String := "Invoice ID: 0123456789abcdef"

/-- A document with exactly one product block whose own total amount is
unrecoverable (the first `Total`-anchored capture is the digitless `.`),
and a header total paid of 42.00. -/
def docOneBlock : String := "A Total .\nB Subtotal $5\nTotal paid (USD) $42.00"

/-- A document whose single product block's 25-line window contains a
`Subtotal` label with an amount while the first `Total`-anchored capture
is digitless. -/
def docC9 : String := "A Total .\nB Subtotal $5"

/-- Two labeled header lines. -/
def docPermA : String := "Invoice ID: 00112233445566778899aabb\nStatus: PAID"

/-- The same two labeled lines in the opposite order. -/
def docPermB : String := "Status: PAID\nInvoice ID: 00112233445566778899aabb"

/-- A document carrying two conflicting `Invoice ID:` labels. -/
def docDupIds : String :=
  "Invoice ID: 0000000000000001\nInvoice ID: ffffffffffffffff"

/-- A document exercising the date pipeline. -/
def docDate : String := "Date: March 5, 2023"

/-! ### Generic facts about `searchFirst` -/

/-- A matcher succeeds at no start position of the text (position
`cs.length`, the empty suffix, included). -/
def noMatchIn (m : List Char → Option (List Char)) (cs : List Char) : Prop :=
  ∀ q, q < cs.length + 1 → m (cs.drop q) = none

/-- A matcher succeeds at exactly one start position of the text, with
group value `v` there. -/
def uniqueMatchValue (m : List Char → Option (List Char)) (cs : List Char)
    (v : List Char) : Prop :=
  ∃ p, p < cs.length + 1 ∧ m (cs.drop p) = some v ∧
    ∀ q, q < cs.length + 1 → q ≠ p → m (cs.drop q) = none

/-- Two texts on which a matcher behaves identically: either it succeeds
exactly once in each with the same group value — the formal content of
"the field's label text appears unchanged exactly once, surrounded by
unrelated lines" — or it succeeds in neither (the field is absent from
both). -/
def sameMatchBehavior (m : List Char → Option (List Char)) (cs₁ cs₂ : List Char) : Prop :=
  (∃ v, uniqueMatchValue m cs₁ v ∧ uniqueMatchValue m cs₂ v) ∨
    (noMatchIn m cs₁ ∧ noMatchIn m cs₂)

instance noMatchIn.decidable (m : List Char → Option (List Char)) (cs : List Char) :
    Decidable (noMatchIn m cs) :=
  @decidable_of_iff _ _ (by simp [noMatchIn, List.mem_range])
    (List.decidableBAll (fun q => m (cs.drop q) = none) (List.range (cs.length + 1)))

instance uniqueMatchValue.decidable (m : List Char → Option (List Char))
    (cs : List Char) (v : List Char) : Decidable (uniqueMatchValue m cs v) :=
  @decidable_of_iff _ _ (by simp [uniqueMatchValue, List.mem_range])
    (List.decidableBEx
      (fun p => m (cs.drop p) = some v ∧
        ∀ q ∈ List.range (cs.length + 1), q ≠ p → m (cs.drop q) = none)
      (List.range (cs.length + 1)))

theorem searchFirst_eq_of_unique (m : List Char → Option (List Char)) :
    ∀ (cs : List Char) (v : List Char),
      uniqueMatchValue m cs v → searchFirst m cs = some v := by
  intro cs
  induction cs with
  | nil =>
    rintro v ⟨p, hp, hm, -⟩
    have hp0 : p = 0 := by simpa [Nat.lt_one_iff] using hp
    subst hp0
    simpa [searchFirst] using hm
  | cons c t ih =>
    rintro v ⟨p, hp, hm, hq⟩
    cases p with
    | zero =>
      simp only [List.drop_zero] at hm
      simp [searchFirst, hm]
    | succ p' =>
      have h0 : m (c :: t) = none := by
        simpa using hq 0 (by omega) (by omega)
      have ht : searchFirst m t = some v := by
        apply ih
        refine ⟨p', by simp at hp; omega, by simpa using hm, ?_⟩
        intro q hq' hne
        simpa using hq (q + 1) (by simp; omega) (by omega)
      simp [searchFirst, h0, ht]

theorem searchFirst_eq_none_of_noMatch (m : List Char → Option (List Char)) :
    ∀ cs : List Char, noMatchIn m cs → searchFirst m cs = none := by
  intro cs
  induction cs with
  | nil =>
    intro h
    simpa [searchFirst] using h 0 (by omega)
  | cons c t ih =>
    intro h
    have h0 : m (c :: t) = none := by simpa using h 0 (by omega)
    have ht : searchFirst m t = none := by
      apply ih
      intro q hq
      simpa using h (q + 1) (by simp; omega)
    simp [searchFirst, h0, ht]

theorem searchFirst_congr (m : List Char → Option (List Char)) (cs₁ cs₂ : List Char)
    (h : sameMatchBehavior m cs₁ cs₂) : searchFirst m cs₁ = searchFirst m cs₂ := by
  rcases h with ⟨v, h1, h2⟩ | ⟨h1, h2⟩
  · rw [searchFirst_eq_of_unique m cs₁ v h1, searchFirst_eq_of_unique m cs₂ v h2]
  · rw [searchFirst_eq_none_of_noMatch m cs₁ h1, searchFirst_eq_none_of_noMatch m cs₂ h2]

/-- Leftmost-match rule: a success at position `p` with no success at any
earlier position fixes the search result, whatever happens later. -/
theorem searchFirst_eq_of_first (m : List Char → Option (List Char)) :
    ∀ (cs : List Char) (p : ℕ) (v : List Char),
      m (cs.drop p) = some v → (∀ r, r < p → m (cs.drop r) = none) →
      searchFirst m cs = some v := by
  intro cs
  induction cs with
  | nil =>
    intro p v hm _
    simp only [List.drop_nil] at hm
    simpa [searchFirst] using hm
  | cons c t ih =>
    intro p v hm hr
    cases p with
    | zero =>
      simp only [List.drop_zero] at hm
      simp [searchFirst, hm]
    | succ p' =>
      have h0 : m (c :: t) = none := by simpa using hr 0 (by omega)
      have ht : searchFirst m t = some v :=
        ih p' v (by simpa using hm) (fun r hr' => by simpa using hr (r + 1) (by omega))
      simp [searchFirst, h0, ht]

theorem searchFirst_isSome_of_match (m : List Char → Option (List Char)) :
    ∀ (cs : List Char) (p : ℕ) (v : List Char),
      m (cs.drop p) = some v → (searchFirst m cs).isSome := by
  intro cs
  induction cs with
  | nil =>
    intro p v hm
    simp only [List.drop_nil] at hm
    simp [searchFirst, hm]
  | cons c t ih =>
    intro p v hm
    cases hc : m (c :: t) with
    | some r => simp [searchFirst, hc]
    | none =>
      cases p with
      | zero => simp only [List.drop_zero] at hm; simp_all
      | succ p' =>
        have := ih p' v (by simpa using hm)
        simpa [searchFirst, hc] using this

theorem exists_match_of_searchFirst (m : List Char → Option (List Char)) :
    ∀ (cs : List Char) (v : List Char),
      searchFirst m cs = some v → ∃ p, m (cs.drop p) = some v := by
  intro cs
  induction cs with
  | nil =>
    intro v h
    exact ⟨0, by simpa [searchFirst] using h⟩
  | cons c t ih =>
    intro v h
    cases hc : m (c :: t) with
    | some r =>
      refine ⟨0, ?_⟩
      simp only [searchFirst, hc] at h
      simpa [hc] using h
    | none =>
      simp only [searchFirst, hc] at h
      obtain ⟨p, hp⟩ := ih v h
      exact ⟨p + 1, by simpa using hp⟩

/-! ### Dictionary lemmas -/

theorem lookup_cons (k' k : String) (v : PyVal) (t : Rec) :
    List.lookup k' ((k, v) :: t) = if k' = k then some v else List.lookup k' t := by
  by_cases h : k' = k
  · subst h; simp [List.lookup]
  · simp [List.lookup, h, show (k' == k) = false from beq_eq_false_iff_ne.mpr h]

theorem lookup_dictSet (d : Rec) (k k' : String) (v : PyVal) :
    List.lookup k' (dictSet d k v) = if k' = k then some v else List.lookup k' d := by
  induction d with
  | nil =>
    show List.lookup k' [(k, v)] = _
    rw [lookup_cons]
  | cons kv t ih =>
    obtain ⟨k₀, v₀⟩ := kv
    by_cases h0 : k₀ = k
    · subst h0
      rw [show dictSet ((k₀, v₀) :: t) k₀ v = (k₀, v) :: t from by simp [dictSet]]
      rw [lookup_cons, lookup_cons]
      by_cases h : k' = k₀ <;> simp [h]
    · rw [show dictSet ((k₀, v₀) :: t) k v = (k₀, v₀) :: dictSet t k v from by
        simp [dictSet, h0]]
      rw [lookup_cons, ih, lookup_cons]
      by_cases h : k' = k₀ <;> by_cases h2 : k' = k
      · exact absurd (h.symm.trans h2) h0
      all_goals simp [h, h2, h0, Ne.symm h0]

theorem lookup_dictUpdate_notMem (kvs : Rec) :
    ∀ (d : Rec) (k' : String), k' ∉ kvs.map Prod.fst →
      List.lookup k' (dictUpdate d kvs) = List.lookup k' d := by
  induction kvs with
  | nil => intro d k' _; rfl
  | cons kv t ih =>
    intro d k' h
    simp only [List.map_cons, List.mem_cons] at h
    push_neg at h
    have := ih (dictSet d kv.1 kv.2) k' h.2
    simpa [dictUpdate, lookup_dictSet, h.1] using this

theorem keysOf_dictSet (d : Rec) (k : String) (v : PyVal) :
    keysOf (dictSet d k v) =
      if k ∈ keysOf d then keysOf d else keysOf d ++ [k] := by
  induction d with
  | nil => simp [dictSet, keysOf]
  | cons kv t ih =>
    obtain ⟨k₀, v₀⟩ := kv
    by_cases h0 : k₀ = k
    · subst h0
      simp [dictSet, keysOf]
    · have h0' : ¬ k = k₀ := fun hk => h0 hk.symm
      simp only [keysOf] at ih ⊢
      simp only [dictSet, if_neg h0, List.map_cons]
      rw [ih]
      by_cases hm : k ∈ List.map Prod.fst t
      · rw [if_pos hm, if_pos (by simp [List.mem_cons, hm])]
      · rw [if_neg hm, if_neg (by simp [List.mem_cons, hm, h0']), List.cons_append]

theorem keysOf_dictUpdate (kvs : Rec) :
    ∀ d : Rec, keysOf (dictUpdate d kvs) = keyFold (keysOf d) (kvs.map Prod.fst) := by
  induction kvs with
  | nil => intro d; rfl
  | cons kv t ih =>
    intro d
    have := ih (dictSet d kv.1 kv.2)
    simpa [dictUpdate, keyFold, keysOf_dictSet] using this

theorem backfillRows_length (t : String) (rows : List Rec) :
    (backfillRows t rows).length = rows.length := by
  match rows with
  | [] => rfl
  | [r] => simp [backfillRows]
  | r :: r' :: rs => rfl

/-! ### Loop-progress lemmas for the segmenter -/

theorem sbGo_fuel_irrelevant (lines : List (List Char)) :
    ∀ fuel₁ fuel₂ i, lines.length - i ≤ fuel₁ → lines.length - i ≤ fuel₂ →
      sbGo lines fuel₁ i = sbGo lines fuel₂ i := by
  intro fuel₁
  induction fuel₁ with
  | zero =>
    intro fuel₂ i h1 _
    have hi : ¬ i < lines.length := by omega
    cases fuel₂ with
    | zero => rfl
    | succ f2 => simp [sbGo, hi]
  | succ f1 ih =>
    intro fuel₂ i h1 h2
    cases fuel₂ with
    | zero =>
      have hi : ¬ i < lines.length := by omega
      simp [sbGo, hi]
    | succ f2 =>
      by_cases hi : i < lines.length
      · simp only [sbGo, if_pos hi]
        cases hm : searchFirst productM (windowJoin lines i 12) with
        | some name => simp [ih f2 (i + 6) (by omega) (by omega)]
        | none => simp [ih f2 (i + 1) (by omega) (by omega)]
      · simp [sbGo, hi]

theorem sbSteps_le (lines : List (List Char)) :
    ∀ fuel i, lines.length - i ≤ fuel → sbSteps lines fuel i ≤ lines.length - i := by
  intro fuel
  induction fuel with
  | zero => intro i _; simp [sbSteps]
  | succ f ih =>
    intro i h
    by_cases hi : i < lines.length
    · have hadv : i < sbAdvance lines i := by
        simp only [sbAdvance]; split <;> omega
      have := ih (sbAdvance lines i) (by omega)
      simp only [sbSteps, if_pos hi]
      omega
    · simp [sbSteps, hi]

/-! ### Claims -/

/-- C8: `split_product_blocks` terminates on every finite input: each
loop iteration strictly increases the cursor — by exactly 6 lines when
the name-with-subtotal pattern matches in the 12-line window, by exactly
1 line otherwise — so the scan needs at most `lines.length - i` further
iterations from cursor `i`: any iteration budget that large yields the
loop's value (the list of items found, in order) and the iteration count
is bounded by it. -/
theorem claim_C8_termination :
    ∀ (lines : List (List Char)) (i fuel : ℕ),
      (i < lines.length →
        i < sbAdvance lines i ∧
        ((searchFirst productM (windowJoin lines i 12)).isSome ↔
          sbAdvance lines i = i + 6) ∧
        (¬ (searchFirst productM (windowJoin lines i 12)).isSome ↔
          sbAdvance lines i = i + 1)) ∧
      (lines.length - i ≤ fuel →
        sbGo lines fuel i = sbGo lines (lines.length - i) i ∧
        sbSteps lines fuel i ≤ lines.length - i) := by
  intro lines i fuel
  constructor
  · intro _
    refine ⟨?_, ?_, ?_⟩
    · simp only [sbAdvance]; split <;> omega
    · by_cases h : (searchFirst productM (windowJoin lines i 12)).isSome <;>
        simp [sbAdvance, h]
    · by_cases h : (searchFirst productM (windowJoin lines i 12)).isSome <;>
        simp [sbAdvance, h]
  · intro h
    exact ⟨sbGo_fuel_irrelevant lines fuel (lines.length - i) i h (by omega),
      sbSteps_le lines fuel i h⟩

theorem claim_C8_termination_witness :
    0 < (prepLines docOneBlock.data).length ∧
    0 < sbAdvance (prepLines docOneBlock.data) 0 ∧
    sbGo (prepLines docOneBlock.data) 7 0 =
      sbGo (prepLines docOneBlock.data) ((prepLines docOneBlock.data).length - 0) 0 ∧
    sbSteps (prepLines docOneBlock.data) 7 0 ≤ (prepLines docOneBlock.data).length - 0 :=
  ⟨by decide,
   ((claim_C8_termination (prepLines docOneBlock.data) 0 7).1 (by decide)).1,
   ((claim_C8_termination (prepLines docOneBlock.data) 0 7).2 (by decide)).1,
   ((claim_C8_termination (prepLines docOneBlock.data) 0 7).2 (by decide)).2⟩

/-- C7: empty or label-free text is handled without error: the empty
string yields zero records, every header field of the empty string
resolves to null, and any text with no invoice id and no detected line
item yields zero records (the `DocumentUnparseable` case), by normal
return rather than an exception — the embedding is a total function. -/
theorem claim_C7_no_fatal_error :
    parseInvoiceText "" = [] ∧
    (∀ f : HeaderField, extractHeaderField f "" = PyVal.none) ∧
    (∀ t : String, invoiceIdOf t = none → splitProductBlocksS t = [] →
      parseInvoiceText t = []) := by
  refine ⟨by decide, ?_, ?_⟩
  · intro f; cases f <;> rfl
  · intro t h1 h2
    simp [parseInvoiceText, h2, backfillRows, h1]

theorem claim_C7_no_fatal_error_witness :
    invoiceIdOf "garbled \x0c text" = none ∧
    splitProductBlocksS "garbled \x0c text" = [] ∧
    parseInvoiceText "garbled \x0c text" = [] :=
  ⟨by decide, by decide,
   claim_C7_no_fatal_error.2.2 "garbled \x0c text" (by decide) (by decide)⟩

theorem emptyItemRecord_lineFields (t : String) :
    List.lookup "product_name" (emptyItemRecord t) = some PyVal.none ∧
    List.lookup "deal_plan" (emptyItemRecord t) = some PyVal.none ∧
    List.lookup "line_subtotal" (emptyItemRecord t) = some PyVal.none ∧
    List.lookup "line_plan_discount" (emptyItemRecord t) = some PyVal.none ∧
    List.lookup "line_total" (emptyItemRecord t) = some PyVal.none := by
  refine ⟨?_, ?_, ?_, ?_, ?_⟩ <;> rfl

/-- C1: the number of records emitted for a document is
`max 1 (number of detected line items)`, except that it is `0` when the
detected item list is empty and the invoice id is null; and in the
zero-items, non-null-id case the single record has every line-item field
null. -/
theorem claim_C1_record_count :
    ∀ t : String,
      (parseInvoiceText t).length =
        (if splitProductBlocksS t = [] ∧ invoiceIdOf t = none then 0
         else max 1 (splitProductBlocksS t).length) ∧
      (splitProductBlocksS t = [] → (invoiceIdOf t).isSome →
        ∀ r ∈ parseInvoiceText t,
          List.lookup "product_name" r = some PyVal.none ∧
          List.lookup "deal_plan" r = some PyVal.none ∧
          List.lookup "line_subtotal" r = some PyVal.none ∧
          List.lookup "line_plan_discount" r = some PyVal.none ∧
          List.lookup "line_total" r = some PyVal.none) := by
  intro t
  cases hsp : splitProductBlocksS t with
  | nil =>
    cases hid : invoiceIdOf t with
    | none =>
      constructor
      · simp [parseInvoiceText, hsp, hid, backfillRows]
      · intro _ hSome
        simp at hSome
    | some v =>
      constructor
      · simp [parseInvoiceText, hsp, hid, backfillRows]
      · intro _ _ r hr
        simp [parseInvoiceText, hsp, hid, backfillRows] at hr
        subst hr
        exact emptyItemRecord_lineFields t
  | cons r rs =>
    constructor
    · have hlen : (backfillRows t (r :: rs)).length = (r :: rs).length :=
        backfillRows_length t (r :: rs)
      have hne : backfillRows t (r :: rs) ≠ [] := by
        intro h
        rw [h] at hlen
        simp at hlen
      simp only [parseInvoiceText, hsp]
      rw [if_neg (by intro h; exact hne h.1)]
      simp only [List.length_map, hlen, List.length_cons]
      rw [if_neg (fun hc => List.cons_ne_nil r rs hc.1)]
      omega
    · intro h
      exact List.noConfusion h

/-! ### C2: the single-item backfill -/

theorem headerPairs_keys (t : String) :
    (headerPairsOf t).map Prod.fst =
      ["invoice_id", "invoice_status", "invoice_date", "payment_type", "tax_id",
       "invoice_subtotal", "invoice_plan_discount_total", "invoice_tax",
       "invoice_total_paid"] := rfl

/-- The two sequential conditional in-place updates of the single
detected row (source lines 140–144), read back through `lookup`. -/
theorem lookup_after_backfill (r : Rec) (P Q : Prop) [Decidable P] [Decidable Q]
    (v w : PyVal) :
    (List.lookup "line_total"
        (if List.lookup "line_subtotal"
              (if List.lookup "line_total" r = some PyVal.none ∧ P
               then dictSet r "line_total" v else r) = some PyVal.none ∧ Q
         then dictSet
              (if List.lookup "line_total" r = some PyVal.none ∧ P
               then dictSet r "line_total" v else r) "line_subtotal" w
         else if List.lookup "line_total" r = some PyVal.none ∧ P
              then dictSet r "line_total" v else r) =
      if List.lookup "line_total" r = some PyVal.none ∧ P then some v
      else List.lookup "line_total" r) ∧
    (List.lookup "line_subtotal"
        (if List.lookup "line_subtotal"
              (if List.lookup "line_total" r = some PyVal.none ∧ P
               then dictSet r "line_total" v else r) = some PyVal.none ∧ Q
         then dictSet
              (if List.lookup "line_total" r = some PyVal.none ∧ P
               then dictSet r "line_total" v else r) "line_subtotal" w
         else if List.lookup "line_total" r = some PyVal.none ∧ P
              then dictSet r "line_total" v else r) =
      if List.lookup "line_subtotal" r = some PyVal.none ∧ Q then some w
      else List.lookup "line_subtotal" r) := by
  have L2 : List.lookup "line_subtotal"
      (if List.lookup "line_total" r = some PyVal.none ∧ P
       then dictSet r "line_total" v else r) = List.lookup "line_subtotal" r := by
    split_ifs with h
    · rw [lookup_dictSet, if_neg (by decide)]
    · rfl
  constructor
  · by_cases h2 : List.lookup "line_subtotal"
        (if List.lookup "line_total" r = some PyVal.none ∧ P
         then dictSet r "line_total" v else r) = some PyVal.none ∧ Q
    · rw [if_pos h2, lookup_dictSet, if_neg (by decide)]
      split_ifs with h1
      · rw [lookup_dictSet, if_pos rfl]
      · rfl
    · rw [if_neg h2]
      split_ifs with h1
      · rw [lookup_dictSet, if_pos rfl]
      · rfl
  · by_cases h2 : List.lookup "line_subtotal"
        (if List.lookup "line_total" r = some PyVal.none ∧ P
         then dictSet r "line_total" v else r) = some PyVal.none ∧ Q
    · rw [if_pos h2, lookup_dictSet, if_pos rfl,
        if_pos ⟨L2.symm.trans h2.1, h2.2⟩]
    · rw [if_neg h2, L2, if_neg (fun hc => h2 ⟨L2.trans hc.1, hc.2⟩)]

/-- C2: the assembler backfills if and only if exactly one line item was
detected.  With a single detected row, the emitted record's `line_total`
is the header's total paid exactly when the row's own `line_total` is
null and the header value is not, and independently for `line_subtotal`
from the header's invoice subtotal; with two or more rows every record
is the row merged with the header unchanged; with zero rows the line
fields of any emitted record are null, not header values. -/
theorem claim_C2_single_item_backfill :
    (∀ (t : String) (r : Rec), splitProductBlocksS t = [r] →
      ∃ out, parseInvoiceText t = [out] ∧
        List.lookup "line_total" out =
          (if List.lookup "line_total" r = some PyVal.none ∧ (totalPaidOf t).isSome
           then some (pyOptNum (totalPaidOf t))
           else List.lookup "line_total" r) ∧
        List.lookup "line_subtotal" out =
          (if List.lookup "line_subtotal" r = some PyVal.none ∧ (invSubtotalOf t).isSome
           then some (pyOptNum (invSubtotalOf t))
           else List.lookup "line_subtotal" r)) ∧
    (∀ t : String, 2 ≤ (splitProductBlocksS t).length →
      parseInvoiceText t =
        (splitProductBlocksS t).map (fun r => dictUpdate r (headerPairsOf t))) ∧
    (∀ t : String, splitProductBlocksS t = [] →
      ∀ out ∈ parseInvoiceText t,
        List.lookup "line_total" out = some PyVal.none ∧
        List.lookup "line_subtotal" out = some PyVal.none) := by
  refine ⟨?_, ?_, ?_⟩
  · intro t r h
    have hlt : "line_total" ∉ (headerPairsOf t).map Prod.fst := by
      rw [headerPairs_keys]; decide
    have hls : "line_subtotal" ∉ (headerPairsOf t).map Prod.fst := by
      rw [headerPairs_keys]; decide
    unfold parseInvoiceText
    rw [h]
    simp only [backfillRows]
    rw [if_neg (fun hc => List.cons_ne_nil _ ([] : List Rec) hc.1)]
    simp only [List.map_cons, List.map_nil]
    refine ⟨_, rfl, ?_, ?_⟩
    · rw [lookup_dictUpdate_notMem _ _ _ hlt]
      exact (lookup_after_backfill r _ _ _ _).1
    · rw [lookup_dictUpdate_notMem _ _ _ hls]
      exact (lookup_after_backfill r _ _ _ _).2
  · intro t h2
    cases hsp : splitProductBlocksS t with
    | nil => rw [hsp] at h2; simp at h2
    | cons r rs =>
      cases rs with
      | nil => rw [hsp] at h2; simp at h2
      | cons r' rs' =>
        unfold parseInvoiceText
        rw [hsp]
        simp only [backfillRows]
        rw [if_neg (fun hc => List.cons_ne_nil _ _ hc.1)]
  · intro t h out hout
    unfold parseInvoiceText at hout
    rw [h] at hout
    simp only [backfillRows] at hout
    by_cases hid : (invoiceIdOf t).isSome
    · simp only [hid, and_true, List.map_nil] at hout
      rw [if_pos (by simp)] at hout
      rw [List.mem_singleton] at hout
      subst hout
      have h5 := emptyItemRecord_lineFields t
      exact ⟨h5.2.2.2.2, h5.2.2.1⟩
    · rw [if_neg (fun hc => hid hc.2)] at hout
      simp at hout

theorem claim_C2_single_item_backfill_witness :
    splitProductBlocksS docOneBlock =
      [[("product_name", PyVal.str "A Total .\nB"), ("deal_plan", PyVal.none),
        ("line_subtotal", PyVal.num 5), ("line_plan_discount", PyVal.none),
        ("line_total", PyVal.none)]] ∧
    totalPaidOf docOneBlock = some 42 ∧
    (parseInvoiceText docOneBlock).map (List.lookup "line_total") =
      [some (PyVal.num 42)] := by
  refine ⟨by decide, by decide, ?_⟩
  obtain ⟨out, h1, h2, -⟩ := claim_C2_single_item_backfill.1 docOneBlock
    [("product_name", PyVal.str "A Total .\nB"), ("deal_plan", PyVal.none),
     ("line_subtotal", PyVal.num 5), ("line_plan_discount", PyVal.none),
     ("line_total", PyVal.none)] (by decide)
  rw [h1, List.map_cons, List.map_nil, h2, if_pos ⟨by decide, by decide⟩]
  decide

/-! ### C5: the date normalizer -/

theorem containsCI_false_no_prefix (pat : List Char) :
    ∀ cs : List Char, containsCI pat cs = false →
      ∀ p, (ciPrefix? pat (cs.drop p)).isSome = false := by
  intro cs
  induction cs with
  | nil =>
    intro h p
    simpa [containsCI] using h
  | cons c t ih =>
    intro h p
    rw [containsCI, Bool.or_eq_false_iff] at h
    cases p with
    | zero => exact h.1
    | succ p' => simpa using ih h.2 p'

theorem dateM1_none_of_no_label (cs : List Char) (h : containsCI "date:".data cs = false) :
    ∀ p, dateM1 (cs.drop p) = none := by
  intro p
  have hp := containsCI_false_no_prefix "date:".data cs h p
  unfold dateM1
  cases hcp : ciPrefix? "date:".data (cs.drop p) with
  | some r => rw [hcp] at hp; simp at hp
  | none => rfl

theorem dateM2_none_of_no_label (cs : List Char) (h : containsCI "date:".data cs = false) :
    ∀ p, dateM2 (cs.drop p) = none := by
  intro p
  have hp := containsCI_false_no_prefix "date:".data cs h p
  unfold dateM2
  cases hcp : ciPrefix? "date:".data (cs.drop p) with
  | some r => rw [hcp] at hp; simp at hp
  | none => rfl

theorem parseDateChars_none_of_no_label (cs : List Char)
    (h : containsCI "date:".data cs = false) : parseDateChars cs = none := by
  have h1 : searchFirst dateM1 cs = none :=
    searchFirst_eq_none_of_noMatch dateM1 cs (fun q _ => dateM1_none_of_no_label cs h q)
  have h2 : searchFirst dateM2 cs = none :=
    searchFirst_eq_none_of_noMatch dateM2 cs (fun q _ => dateM2_none_of_no_label cs h q)
  unfold parseDateChars parseDateP2
  rw [h1, h2]

/-- C5: `parse_date` tries the two labeled date patterns in fixed order —
long month name first, abbreviated second — and the first pattern whose
first match parses against its paired format decides the result, rendered
as an ISO-8601 date; when the first pattern's first capture is
`"March 5, 2023"` the result is `"2023-03-05"`, and a text without the
`Date:` label (case-insensitively) yields null. -/
theorem claim_C5_date_normalizer :
    ∀ t : String,
      (searchFirst dateM1 t.data = some "March 5, 2023".data →
        parseDateS t = some "2023-03-05") ∧
      (containsCI "date:".data t.data = false → parseDateS t = none) := by
  intro t
  constructor
  · intro h
    unfold parseDateS parseDateChars
    rw [h]
    rfl
  · intro h
    exact parseDateChars_none_of_no_label t.data h

theorem claim_C5_date_normalizer_witness :
    searchFirst dateM1 docDate.data = some "March 5, 2023".data ∧
    parseDateS docDate = some "2023-03-05" ∧
    containsCI "date:".data "no label here".data = false ∧
    parseDateS "no label here" = none :=
  ⟨by decide, (claim_C5_date_normalizer docDate).1 (by decide), by decide,
   (claim_C5_date_normalizer "no label here").2 (by decide)⟩

/-! ### C3: the output key set -/

theorem sbGo_rows_keys (lines : List (List Char)) :
    ∀ fuel i, ∀ r ∈ sbGo lines fuel i, keysOf r = productKeys := by
  intro fuel
  induction fuel with
  | zero => intro i r hr; simp [sbGo] at hr
  | succ f ih =>
    intro i r hr
    by_cases hi : i < lines.length
    · simp only [sbGo, if_pos hi] at hr
      cases hm : searchFirst productM (windowJoin lines i 12) with
      | some name =>
        simp only [hm] at hr
        rcases List.mem_cons.mp hr with h | h
        · subst h; rfl
        · exact ih _ r h
      | none =>
        simp only [hm] at hr
        exact ih _ r hr
    · simp only [sbGo, if_neg hi] at hr
      simp at hr

theorem splitProductBlocks_rows_keys (cs : List Char) :
    ∀ r ∈ splitProductBlocks cs, keysOf r = productKeys := by
  intro r hr
  exact sbGo_rows_keys _ _ _ r hr

theorem keysOf_condSet (d : Rec) (P : Prop) [Decidable P] (k : String) (v : PyVal)
    (hk : k ∈ productKeys) (hd : keysOf d = productKeys) :
    keysOf (if P then dictSet d k v else d) = productKeys := by
  split_ifs
  · rw [keysOf_dictSet, hd, if_pos hk]
  · exact hd

theorem backfillRows_rows_keys (t : String) (rows : List Rec)
    (h : ∀ r ∈ rows, keysOf r = productKeys) :
    ∀ r ∈ backfillRows t rows, keysOf r = productKeys := by
  match rows with
  | [] => intro r hr; simp [backfillRows] at hr
  | [r0] =>
    intro r hr
    have h0 := h r0 (by simp)
    simp only [backfillRows, List.mem_singleton] at hr
    subst hr
    exact keysOf_condSet _ _ _ _ (by decide)
      (keysOf_condSet _ _ _ _ (by decide) h0)
  | r0 :: r1 :: rs =>
    intro r hr
    exact h r (by simpa [backfillRows] using hr)

theorem parseInvoiceText_keys (t : String) :
    ∀ r ∈ parseInvoiceText t,
      keysOf r =
        ["invoice_id", "invoice_status", "invoice_date", "payment_type", "tax_id",
         "product_name", "deal_plan", "line_subtotal", "line_plan_discount",
         "line_total", "invoice_subtotal", "invoice_plan_discount_total",
         "invoice_tax", "invoice_total_paid"] ∨
      keysOf r =
        ["product_name", "deal_plan", "line_subtotal", "line_plan_discount",
         "line_total", "invoice_id", "invoice_status", "invoice_date",
         "payment_type", "tax_id", "invoice_subtotal",
         "invoice_plan_discount_total", "invoice_tax", "invoice_total_paid"] := by
  intro r hr
  simp only [parseInvoiceText] at hr
  split at hr
  · left
    rw [List.mem_singleton] at hr
    subst hr
    rfl
  · right
    rw [List.mem_map] at hr
    obtain ⟨r', hmem, rfl⟩ := hr
    have hk : keysOf r' = productKeys :=
      backfillRows_rows_keys t _ (splitProductBlocks_rows_keys t.data) r' hmem
    rw [keysOf_dictUpdate, hk, headerPairs_keys]
    decide

theorem claim_C3_key_set_counterexample :
    (mainRows docIdOnly "invoices/a.pdf").length = 1 ∧
    "_source_file" ∈ keysOf ((mainRows docIdOnly "invoices/a.pdf").headD []) ∧
    "source_document_reference" ∉ keysOf ((mainRows docIdOnly "invoices/a.pdf").headD []) :=
  ⟨by decide, by decide, by decide⟩

/-- C3 (amended): every record written by `main` is a flat mapping whose
key multiset is exactly the fourteen parser keys plus the
source-document reference key — the latter named `"_source_file"` in the
code, not `source_document_reference`. -/
theorem claim_C3_amended_key_set :
    ∀ (t path : String), ∀ r ∈ mainRows t path, (keysOf r).Perm outputKeys := by
  intro t path r hr
  simp only [mainRows, List.mem_map] at hr
  obtain ⟨r', hmem, rfl⟩ := hr
  rcases parseInvoiceText_keys t r' hmem with h | h <;>
    · rw [keysOf_dictSet, h]
      rw [if_neg (by decide)]
      decide

theorem claim_C3_amended_key_set_witness :
    dictSet (emptyItemRecord docIdOnly) "_source_file" (PyVal.str "invoices/a.pdf") ∈
      mainRows docIdOnly "invoices/a.pdf" ∧
    (keysOf (dictSet (emptyItemRecord docIdOnly) "_source_file"
      (PyVal.str "invoices/a.pdf"))).Perm outputKeys :=
  ⟨by decide, claim_C3_amended_key_set docIdOnly "invoices/a.pdf" _ (by decide)⟩

/-! ### C10: duplicate labels — the earliest match wins -/

/-- C10: each header field's extraction searches the text with its
label-anchored matcher(s) (`headerMatchers`), and `searchFirst` takes the
earliest matching position: when a matcher succeeds at two positions
`p < q` with values `v` and `w` and nowhere before `p`, the search yields
`v` — the later occurrence is ignored, with no error and no
reconciliation, for all nine header fields alike. -/
theorem claim_C10_earliest_match_wins :
    ∀ f : HeaderField, ∀ m ∈ headerMatchers f,
      ∀ (cs : List Char) (p q : ℕ) (v w : List Char),
        p < q → m (cs.drop p) = some v → m (cs.drop q) = some w →
        (∀ r, r < p → m (cs.drop r) = none) →
        searchFirst m cs = some v := by
  intro f m _ cs p q v w _ hp _ hr
  exact searchFirst_eq_of_first m cs p v hp hr

theorem claim_C10_earliest_match_wins_witness :
    (0 : ℕ) < 29 ∧
    invoiceIdM (docDupIds.data.drop 0) = some "0000000000000001".data ∧
    invoiceIdM (docDupIds.data.drop 29) = some "ffffffffffffffff".data ∧
    searchFirst invoiceIdM docDupIds.data = some "0000000000000001".data :=
  ⟨by decide, by decide, by decide,
   claim_C10_earliest_match_wins .invoiceId invoiceIdM (by simp [headerMatchers])
     docDupIds.data 0 29 "0000000000000001".data "ffffffffffffffff".data
     (by decide) (by decide) (by decide) (fun r hr => absurd hr (by omega))⟩

/-! ### C6: order independence of header extraction -/

/-- C6: header extraction is order-independent.  For each of the nine
header fields, if each of the field's matchers behaves identically on two
texts — it succeeds at exactly one start position in each with the same
captured value (the field's labeled line is intact and unique, all other
lines being unrelated to it), or succeeds in neither (the field is
absent) — then the extracted field value is identical on the two texts.
Permuting unrelated labeled lines as well as removing another field's
line preserves these hypotheses, so a field's value never depends on the
position of unrelated lines nor on another field's absence. -/
theorem claim_C6_order_independence :
    ∀ (t₁ t₂ : String) (f : HeaderField),
      (∀ m ∈ headerMatchers f, sameMatchBehavior m t₁.data t₂.data) →
      extractHeaderField f t₁ = extractHeaderField f t₂ := by
  intro t₁ t₂ f h
  cases f
  case invoiceId =>
    have hm := searchFirst_congr invoiceIdM t₁.data t₂.data
      (h invoiceIdM (by simp [headerMatchers]))
    simp [extractHeaderField, invoiceIdOf, hm]
  case status =>
    have hm := searchFirst_congr statusM t₁.data t₂.data
      (h statusM (by simp [headerMatchers]))
    simp [extractHeaderField, statusOf, hm]
  case payment =>
    have hm := searchFirst_congr paymentM t₁.data t₂.data
      (h paymentM (by simp [headerMatchers]))
    simp [extractHeaderField, paymentTypeOf, hm]
  case taxId =>
    have hm := searchFirst_congr taxIdM t₁.data t₂.data
      (h taxIdM (by simp [headerMatchers]))
    simp [extractHeaderField, taxIdOf, hm]
  case date =>
    have h1 := searchFirst_congr dateM1 t₁.data t₂.data
      (h dateM1 (by simp [headerMatchers]))
    have h2 := searchFirst_congr dateM2 t₁.data t₂.data
      (h dateM2 (by simp [headerMatchers]))
    have hp2 : parseDateP2 t₁.data = parseDateP2 t₂.data := by
      unfold parseDateP2
      rw [h2]
    simp only [extractHeaderField, dateOf]
    unfold parseDateChars
    rw [h1, hp2]
  case invSubtotal =>
    have hm := searchFirst_congr invSubtotalM t₁.data t₂.data
      (h invSubtotalM (by simp [headerMatchers]))
    simp [extractHeaderField, invSubtotalOf, normCapt, hm]
  case planDiscTot =>
    have hm := searchFirst_congr planDiscTotM t₁.data t₂.data
      (h planDiscTotM (by simp [headerMatchers]))
    simp [extractHeaderField, planDiscTotOf, normCapt, hm]
  case invTax =>
    have hm := searchFirst_congr invTaxM t₁.data t₂.data
      (h invTaxM (by simp [headerMatchers]))
    simp [extractHeaderField, invTaxOf, normCapt, hm]
  case totalPaid =>
    have hm := searchFirst_congr totalPaidM t₁.data t₂.data
      (h totalPaidM (by simp [headerMatchers]))
    simp [extractHeaderField, totalPaidOf, normCapt, hm]

theorem claim_C6_order_independence_witness :
    extractHeaderField .invoiceId docPermA = extractHeaderField .invoiceId docPermB :=
  claim_C6_order_independence docPermA docPermB .invoiceId (by
    intro m hm
    simp only [headerMatchers, List.mem_singleton] at hm
    subst hm
    exact Or.inl ⟨"00112233445566778899aabb".data, by decide, by decide⟩)

/-! ### C9: the per-item total pattern and the `Subtotal` label -/

theorem ciPrefix?_append (p q : List Char) :
    ∀ (cs r : List Char), ciPrefix? (p ++ q) cs = some r →
      ciPrefix? q (cs.drop p.length) = some r := by
  induction p with
  | nil => intro cs r h; simpa using h
  | cons a p' ih =>
    intro cs r h
    cases cs with
    | nil => simp [ciPrefix?] at h
    | cons c cs' =>
      simp only [List.cons_append, ciPrefix?] at h
      by_cases hlc : lc c = lc a
      · rw [if_pos hlc] at h
        simpa using ih cs' r h
      · rw [if_neg hlc] at h
        exact absurd h (by simp)

/-- The per-item total pattern matches inside every per-item subtotal
match: `Subtotal` contains `total` three characters in, and the amount
tail is shared, so the total matcher succeeds on the suffix three
characters later with the same captured amount. -/
theorem lineTotalM_of_lineSubtotalM (cs c : List Char)
    (h : lineSubtotalM cs = some c) : lineTotalM (cs.drop 3) = some c := by
  unfold lineSubtotalM at h
  cases hcp : ciPrefix? "subtotal".data cs with
  | none => rw [hcp] at h; simp at h
  | some r =>
    rw [hcp] at h
    simp only [Option.some_bind] at h
    have h2 : ciPrefix? "total".data (cs.drop 3) = some r := by
      have h3 := ciPrefix?_append ['s', 'u', 'b'] "total".data cs r
        (by rw [show (['s', 'u', 'b'] ++ "total".data : List Char) = "subtotal".data
          from rfl]; exact hcp)
      simpa using h3
    unfold lineTotalM
    rw [h2]
    simpa using h

theorem searchFirst_total_of_subtotal (w : List Char)
    (h : (searchFirst lineSubtotalM w).isSome = true) :
    (searchFirst lineTotalM w).isSome = true := by
  obtain ⟨c, hc⟩ := Option.isSome_iff_exists.mp h
  obtain ⟨p, hp⟩ := exists_match_of_searchFirst lineSubtotalM w c hc
  have h2 := lineTotalM_of_lineSubtotalM _ _ hp
  rw [List.drop_drop] at h2
  exact searchFirst_isSome_of_match lineTotalM w (p + 3) c h2

theorem digit_not_space (d : Char) (h : isDigitCh d = true) : isPySpace d = false := by
  by_contra hs
  rw [Bool.not_eq_false] at hs
  simp only [isPySpace, Bool.or_eq_true, decide_eq_true_eq] at hs
  rcases hs with ((((h1 | h1) | h1) | h1) | h1) | h1 <;> subst h1 <;>
    exact absurd h (by decide)

theorem mem_dropWhile_of_mem (p : Char → Bool) :
    ∀ (l : List Char) (d : Char), d ∈ l → p d = false → d ∈ l.dropWhile p := by
  intro l
  induction l with
  | nil => intro d h _; simp at h
  | cons c t ih =>
    intro d h hp
    rw [List.dropWhile_cons]
    by_cases hc : p c = true
    · rw [if_pos hc]
      rcases List.mem_cons.mp h with h | h
      · subst h; rw [hp] at hc; exact absurd hc (by simp)
      · exact ih d h hp
    · rw [if_neg hc]
      exact h

theorem mem_pyStrip (cs : List Char) (d : Char) (hd : d ∈ cs)
    (hs : isPySpace d = false) : d ∈ pyStrip cs := by
  unfold pyStrip
  rw [List.mem_reverse]
  exact mem_dropWhile_of_mem _ _ d
    (List.mem_reverse.mpr (mem_dropWhile_of_mem _ cs d hd hs)) hs

theorem pyStrip_subset (cs : List Char) : ∀ d ∈ pyStrip cs, d ∈ cs := by
  intro d hd
  unfold pyStrip at hd
  rw [List.mem_reverse] at hd
  have h1 := (List.dropWhile_sublist (l := (cs.dropWhile isPySpace).reverse)
    (p := isPySpace)).subset hd
  rw [List.mem_reverse] at h1
  exact (List.dropWhile_sublist (l := cs) (p := isPySpace)).subset h1

theorem takeWhile_digit_nil (l : List Char) (h : ∀ d ∈ l, isDigitCh d = false) :
    l.takeWhile isDigitCh = [] := by
  cases l with
  | nil => rfl
  | cons c t =>
    rw [List.takeWhile_cons, h c (List.mem_cons_self c t)]
    rfl

theorem fallbackScan_none_of_noDigit :
    ∀ l : List Char, (∀ d ∈ l, isDigitCh d = false) → fallbackScan l = none := by
  intro l
  induction l with
  | nil => intro _; rfl
  | cons c t ih =>
    intro h
    have hc := h c (List.mem_cons_self c t)
    rw [show fallbackScan (c :: t) = fallbackScan t from by simp [fallbackScan, hc]]
    exact ih (fun d hd => h d (List.mem_cons_of_mem c hd))

theorem fallbackScan_isSome_of_digit :
    ∀ l : List Char, (∃ d, d ∈ l ∧ isDigitCh d = true) →
      (fallbackScan l).isSome = true := by
  intro l
  induction l with
  | nil => rintro ⟨d, hd, -⟩; simp at hd
  | cons c t ih =>
    rintro ⟨d, hd, hdd⟩
    by_cases hc : isDigitCh c = true
    · simp [fallbackScan, hc]
    · rw [show fallbackScan (c :: t) = fallbackScan t from by
        simp [fallbackScan, hc]]
      apply ih
      rcases List.mem_cons.mp hd with h | h
      · subst h; exact absurd hdd hc
      · exact ⟨d, h, hdd⟩

theorem pySign_snd_subset (cs : List Char) : ∀ d ∈ (pySign cs).2, d ∈ cs := by
  unfold pySign
  split
  next t => exact fun d hd => List.mem_cons_of_mem _ hd
  next t => exact fun d hd => List.mem_cons_of_mem _ hd
  next => exact fun d hd => hd

theorem pyFracDigits_eq_nil (l : List Char) (h : ∀ d ∈ l, isDigitCh d = false) :
    pyFracDigits l = [] := by
  unfold pyFracDigits
  split
  next t =>
    exact takeWhile_digit_nil t (fun d hd => h d (List.mem_cons_of_mem _ hd))
  next => rfl

theorem pyFloat_none_of_noDigit (cs : List Char)
    (h : ∀ d ∈ cs, isDigitCh d = false) : pyFloat cs = none := by
  have hr0 : ∀ d ∈ (pySign cs).2, isDigitCh d = false :=
    fun d hd => h d (pySign_snd_subset cs d hd)
  simp only [pyFloat]
  rw [takeWhile_digit_nil _ hr0]
  simp only [List.length_nil, List.drop_zero]
  simp [pyFracDigits_eq_nil _ hr0]

theorem normAmount_none_of_noDigit (cs : List Char)
    (h : ∀ d ∈ cs, isDigitCh d = false) : normAmountChars cs = none := by
  simp only [normAmountChars]
  by_cases hne : cs = []
  · rw [if_pos hne]
  · rw [if_neg hne]
    have hs1 : ∀ d ∈ (pyStrip cs).filter (· ≠ ' '), isDigitCh d = false :=
      fun d hd => h d (pyStrip_subset cs d (List.mem_filter.mp hd).1)
    have hmap : ∀ d ∈ ((pyStrip cs).filter (· ≠ ' ')).map
        (fun c => if c = ',' then '.' else c), isDigitCh d = false := by
      intro d hd
      rw [List.mem_map] at hd
      obtain ⟨x, hx, rfl⟩ := hd
      by_cases hxc : x = ','
      · rw [if_pos hxc]; decide
      · rw [if_neg hxc]; exact hs1 x hx
    have hfilters : ∀ (p : Char → Prop) [DecidablePred p],
        ∀ d ∈ ((pyStrip cs).filter (· ≠ ' ')).filter (fun c => decide (p c)),
          isDigitCh d = false :=
      fun p _ d hd => hs1 d (List.mem_filter.mp hd).1
    have hfiltmap : ∀ d ∈ (((pyStrip cs).filter (· ≠ ' ')).filter (· ≠ '.')).map
        (fun c => if c = ',' then '.' else c), isDigitCh d = false := by
      intro d hd
      rw [List.mem_map] at hd
      obtain ⟨x, hx, rfl⟩ := hd
      by_cases hxc : x = ','
      · rw [if_pos hxc]; decide
      · rw [if_neg hxc]; exact hs1 x (List.mem_filter.mp hx).1
    split_ifs with h1 h2 h3
    · rw [pyFloat_none_of_noDigit _ hfiltmap,
        fallbackScan_none_of_noDigit _ hfiltmap]
    · rw [pyFloat_none_of_noDigit _ (hfilters _), fallbackScan_none_of_noDigit _ (hfilters _)]
    · rw [pyFloat_none_of_noDigit _ hmap, fallbackScan_none_of_noDigit _ hmap]
    · rw [pyFloat_none_of_noDigit _ hs1, fallbackScan_none_of_noDigit _ hs1]

theorem normAmount_isSome_of_digit (cs : List Char)
    (h : cs.any isDigitCh = true) : (normAmountChars cs).isSome = true := by
  obtain ⟨d, hdm, hdd⟩ := List.any_eq_true.mp h
  simp only [normAmountChars]
  have hne : cs ≠ [] := by rintro rfl; simp at hdm
  rw [if_neg hne]
  have hd1 : d ∈ (pyStrip cs).filter (· ≠ ' ') := by
    refine List.mem_filter.mpr ⟨mem_pyStrip cs d hdm (digit_not_space d hdd), ?_⟩
    simp only [decide_eq_true_eq]
    rintro rfl
    exact absurd hdd (by decide)
  have hdne1 : d ≠ '.' := by rintro rfl; exact absurd hdd (by decide)
  have hdne2 : d ≠ ',' := by rintro rfl; exact absurd hdd (by decide)
  have key : ∀ s2 : List Char, d ∈ s2 →
      (match pyFloat s2 with
       | some q => some q
       | none => fallbackScan s2).isSome = true := by
    intro s2 hd2
    cases hp : pyFloat s2 with
    | some q => simp
    | none => exact fallbackScan_isSome_of_digit s2 ⟨d, hd2, hdd⟩
  split_ifs with h1 h2 h3
  · refine key _ ?_
    refine List.mem_map.mpr ⟨d, List.mem_filter.mpr ⟨hd1, by simpa using hdne1⟩, ?_⟩
    rw [if_neg hdne2]
  · exact key _ (List.mem_filter.mpr ⟨hd1, by simpa using hdne2⟩)
  · refine key _ ?_
    refine List.mem_map.mpr ⟨d, hd1, ?_⟩
    rw [if_neg hdne2]
  · exact key _ hd1

theorem normAmount_isSome_iff_digit (cs : List Char) :
    (normAmountChars cs).isSome = true ↔ cs.any isDigitCh = true := by
  constructor
  · intro h
    by_contra hn
    rw [Bool.not_eq_true] at hn
    have hall : ∀ d ∈ cs, isDigitCh d = false := by
      intro d hd
      by_contra hdd
      rw [Bool.not_eq_false] at hdd
      have hcontra : cs.any isDigitCh = true := List.any_eq_true.mpr ⟨d, hd, hdd⟩
      rw [hn] at hcontra
      exact Bool.noConfusion hcontra
    rw [normAmount_none_of_noDigit cs hall] at h
    simp at h
  · exact normAmount_isSome_of_digit cs

theorem claim_C9_counterexample :
    splitProductBlocksS docC9 =
      [[("product_name", PyVal.str "A Total .\nB"), ("deal_plan", PyVal.none),
        ("line_subtotal", PyVal.num 5), ("line_plan_discount", PyVal.none),
        ("line_total", PyVal.none)]] ∧
    searchFirst lineSubtotalM (windowJoin (prepLines docC9.data) 0 25) = some ['5'] ∧
    List.lookup "line_total" ((splitProductBlocksS docC9).headD []) = some PyVal.none :=
  ⟨by decide, by decide, by decide⟩

/-- C9 (amended): the per-item total pattern does match the substring
`total` of a `Subtotal` label, so whenever the 25-line window of a
detected block contains a per-item subtotal match, the per-item total
search succeeds too; but the emitted `line_total` is non-null exactly
when the first total match's captured amount contains a digit — a
digitless capture (such as `.`) still yields a null `line_total`, and
then the single-item backfill can fire. -/
theorem claim_C9_amended_total_capture :
    ∀ (name w2 : List Char),
      (searchFirst lineSubtotalM w2).isSome = true →
      (searchFirst lineTotalM w2).isSome = true ∧
      ∀ c, searchFirst lineTotalM w2 = some c →
        (List.lookup "line_total" (buildRow name w2) ≠ some PyVal.none ↔
          c.any isDigitCh = true) := by
  intro name w2 h
  refine ⟨searchFirst_total_of_subtotal w2 h, ?_⟩
  intro c hc
  have hlook : List.lookup "line_total" (buildRow name w2) =
      some (pyOptNum (normCapt (searchFirst lineTotalM w2))) := rfl
  rw [hlook, hc]
  rw [show normCapt (some c) = normAmountChars c from rfl]
  cases hn : normAmountChars c with
  | none =>
    simp only [pyOptNum]
    constructor
    · intro hneq; exact absurd rfl hneq
    · intro hd
      have hsm := (normAmount_isSome_iff_digit c).mpr hd
      rw [hn] at hsm
      simp at hsm
  | some q =>
    simp only [pyOptNum]
    constructor
    · intro _
      exact (normAmount_isSome_iff_digit c).mp (by rw [hn]; rfl)
    · intro _ hq
      exact PyVal.noConfusion (Option.some.inj hq)

theorem claim_C9_amended_total_capture_witness :
    (searchFirst lineSubtotalM (windowJoin (prepLines docC9.data) 0 25)).isSome = true ∧
    (searchFirst lineTotalM (windowJoin (prepLines docC9.data) 0 25)).isSome = true ∧
    searchFirst lineTotalM (windowJoin (prepLines docC9.data) 0 25) = some ['.'] ∧
    (List.lookup "line_total"
        (buildRow "A Total .\nB".data (windowJoin (prepLines docC9.data) 0 25)) ≠
      some PyVal.none ↔ (['.'] : List Char).any isDigitCh = true) := by
  have h := claim_C9_amended_total_capture "A Total .\nB".data
    (windowJoin (prepLines docC9.data) 0 25) (by decide)
  exact ⟨by decide, h.1, by decide, h.2 ['.'] (by decide)⟩

/-! ### C4: the amount normalizer -/

theorem rfindIdx_isSome (c : Char) : ∀ l : List Char, c ∈ l → (rfindIdx c l).isSome := by
  intro l
  induction l with
  | nil => intro h; simp at h
  | cons x t ih =>
    intro h
    simp only [rfindIdx]
    cases hr : rfindIdx c t with
    | some i => rfl
    | none =>
      rcases List.mem_cons.mp h with h | h
      · subst h; simp
      · have := ih h
        rw [hr] at this
        simp at this

theorem rfindIdx_eq_none (c : Char) : ∀ l : List Char, c ∉ l → rfindIdx c l = none := by
  intro l
  induction l with
  | nil => intro _; rfl
  | cons x t ih =>
    intro h
    rw [List.mem_cons] at h
    push_neg at h
    simp only [rfindIdx, ih h.2]
    rw [if_neg (fun hx => h.1 hx.symm)]

/-- The separator "appearing later in the string" (first separator of the
reversed string, as the spec-side definition computes it) is the comma
exactly when the comma's `rfind` index exceeds the period's (as the code
computes it). -/
theorem revFindComma_iff :
    ∀ s1 : List Char, ',' ∈ s1 → '.' ∈ s1 →
      (s1.reverse.find? (fun c => c = ',' || c = '.') = some ',' ↔
        (rfindIdx ',' s1).getD 0 > (rfindIdx '.' s1).getD 0) := by
  intro s1
  induction s1 with
  | nil => intro h; simp at h
  | cons x t ih =>
    intro hc hd
    rw [List.reverse_cons, List.find?_append]
    by_cases hct : ',' ∈ t <;> by_cases hdt : '.' ∈ t
    · -- both separators occur in the tail: the head is irrelevant
      have h1 : (t.reverse.find? (fun c => c = ',' || c = '.')).isSome := by
        rw [List.find?_isSome]
        exact ⟨',', List.mem_reverse.mpr hct, by simp⟩
      obtain ⟨y, hy⟩ := Option.isSome_iff_exists.mp h1
      obtain ⟨i, hi⟩ := Option.isSome_iff_exists.mp (rfindIdx_isSome ',' t hct)
      obtain ⟨j, hj⟩ := Option.isSome_iff_exists.mp (rfindIdx_isSome '.' t hdt)
      have ihh := ih hct hdt
      rw [hy, hi, hj] at ihh
      simp only [rfindIdx, hy, hi, hj, Option.or]
      simpa using ihh
    · -- the period occurs only at the head
      have hx : x = '.' := by
        rcases List.mem_cons.mp hd with h | h
        · exact h.symm
        · exact absurd h hdt
      have h1 : (t.reverse.find? (fun c => c = ',' || c = '.')).isSome := by
        rw [List.find?_isSome]
        exact ⟨',', List.mem_reverse.mpr hct, by simp⟩
      obtain ⟨y, hy⟩ := Option.isSome_iff_exists.mp h1
      have hpy := List.find?_some hy
      have hyv : y = ',' := by
        have hmem := List.mem_reverse.mp (List.mem_of_find?_eq_some hy)
        simp only [Bool.or_eq_true, decide_eq_true_eq] at hpy
        rcases hpy with h | h
        · exact h
        · exact absurd (h ▸ hmem) hdt
      subst hyv
      obtain ⟨i, hi⟩ := Option.isSome_iff_exists.mp (rfindIdx_isSome ',' t hct)
      simp only [rfindIdx, hy, hi, Option.or, rfindIdx_eq_none '.' t hdt]
      rw [if_pos hx]
      simp
    · -- the comma occurs only at the head
      have hx : x = ',' := by
        rcases List.mem_cons.mp hc with h | h
        · exact h.symm
        · exact absurd h hct
      have h1 : (t.reverse.find? (fun c => c = ',' || c = '.')).isSome := by
        rw [List.find?_isSome]
        exact ⟨'.', List.mem_reverse.mpr hdt, by simp⟩
      obtain ⟨y, hy⟩ := Option.isSome_iff_exists.mp h1
      have hpy := List.find?_some hy
      have hyv : y = '.' := by
        have hmem := List.mem_reverse.mp (List.mem_of_find?_eq_some hy)
        simp only [Bool.or_eq_true, decide_eq_true_eq] at hpy
        rcases hpy with h | h
        · exact absurd (h ▸ hmem) hct
        · exact h
      subst hyv
      obtain ⟨j, hj⟩ := Option.isSome_iff_exists.mp (rfindIdx_isSome '.' t hdt)
      simp only [rfindIdx, hy, hj, Option.or, rfindIdx_eq_none ',' t hct]
      rw [if_pos hx]
      simp
    · -- both separators would have to be the single head character
      have hx1 : x = ',' := by
        rcases List.mem_cons.mp hc with h | h
        · exact h.symm
        · exact absurd h hct
      have hx2 : x = '.' := by
        rcases List.mem_cons.mp hd with h | h
        · exact h.symm
        · exact absurd h hdt
      rw [hx1] at hx2
      exact absurd hx2 (by decide)

theorem normAmountSpecChars_eq (cs : List Char) :
    normAmountSpecChars cs = normAmountChars cs := by
  by_cases h0 : cs = []
  · simp [normAmountSpecChars, normAmountChars, h0]
  · simp only [normAmountSpecChars, normAmountChars, if_neg h0]
    by_cases hb : ',' ∈ (pyStrip cs).filter (· ≠ ' ') ∧ '.' ∈ (pyStrip cs).filter (· ≠ ' ')
    · rw [if_pos hb, if_pos hb,
        if_congr (revFindComma_iff _ hb.1 hb.2) rfl rfl]
    · rw [if_neg hb, if_neg hb]

/-- C4: `norm_amount` implements the specified normalization rule for
every string: trim and strip internal spaces; with both separators
present the one appearing later in the string is the decimal separator
and the other is removed; a lone comma becomes a period; a lone period
is kept; then a direct numeric parse is attempted, a digit-scan fallback
is used on failure, and null results when nothing matches.
`normAmountSpecChars` is written from the specification's words (deciding
the later separator on the reversed string), `normAmountChars` from the
code (comparing `rfind` indices); they agree on every input, and the
specified examples hold. -/
theorem claim_C4_amount_normalizer :
    (∀ s : String, normAmountSpecS s = normAmountS s) ∧
    normAmountS "1,234.56" = some (1234.56 : ℚ) ∧
    normAmountS "1.234,56" = some (1234.56 : ℚ) ∧
    normAmountS "3,6" = some (3.6 : ℚ) ∧
    normAmountS "" = none ∧
    normAmountOpt none = none :=
  ⟨fun s => normAmountSpecChars_eq s.data,
   by decide, by decide, by decide, by decide, rfl⟩

theorem claim_C1_record_count_witness :
    (parseInvoiceText docIdOnly).length = 1 ∧
    splitProductBlocksS docIdOnly = [] ∧
    (invoiceIdOf docIdOnly).isSome ∧
    emptyItemRecord docIdOnly ∈ parseInvoiceText docIdOnly ∧
    List.lookup "product_name" (emptyItemRecord docIdOnly) = some PyVal.none ∧
    List.lookup "line_total" (emptyItemRecord docIdOnly) = some PyVal.none := by
  have h := (claim_C1_record_count docIdOnly).2 (by decide) (by decide)
    (emptyItemRecord docIdOnly) (by decide)
  exact ⟨by decide, by decide, by decide, by decide, h.1, h.2.2.2.2⟩

end AppSumo
